import Mathlib

/-!
# text-encrypter: a shallow embedding of the key, codec and file-transcoding logic

This file embeds the two program variants of the repository,
`src/text-encrypter.py` (namespace `TE`) and `src/text_encrypter.py`
(namespace `TU`), together with a model of the external authenticated
encryption primitive (`cryptography.fernet.Fernet`) that both delegate to.

Bytes are `Nat` values below 256; byte strings are `List Nat`; Python `str`
values are lists of Unicode scalar values (`List Nat`); paths are `List Char`.
The filesystem is an explicit association list from path to node, threaded
through every operation that reads or writes it.  Python exceptions that the
programs catch and report become constructors of `Err`; an exception a program
does not catch becomes `Err.UncaughtError`.
-/

/-- Failure taxonomy of the spec (§7), mapped onto the code's handled error
sites: `KeyNotFound` is the "Key not found" report in `resolve_key`,
`SourceNotFound` the "File not found" report, `DecryptionFailed` the
"Failed to decrypt" report (the `InvalidToken` handler), `EncodingError`
a `UnicodeDecodeError` after a successful decrypt.  `UncaughtError` stands
for a Python exception no handler in the program catches. -/
inductive Err where
  | KeyNotFound
  | SourceNotFound
  | DecryptionFailed
  | EncodingError
  | UncaughtError
deriving DecidableEq

/-- A byte string: every element is an actual byte. -/
abbrev ByteList (bs : List Nat) : Prop := ∀ b ∈ bs, b < 256

/-- A valid Fernet key: 44 bytes (the urlsafe-base64 encoding of 32 random
bytes produced by `Fernet.generate_key()` is always 44 bytes long). -/
abbrev ValidKey (key : List Nat) : Prop := key.length = 44 ∧ ∀ b ∈ key, b < 256

/-! ## Hexadecimal text layer of the token model -/

/-- Lowercase hex digit of a nibble. -/
def hexDigit (d : Nat) : Nat := if d < 10 then 48 + d else 87 + d

/-- Value of a lowercase hex digit, `none` on any other byte. -/
def hexVal (c : Nat) : Option Nat :=
  if 48 ≤ c ∧ c ≤ 57 then some (c - 48)
  else if 97 ≤ c ∧ c ≤ 102 then some (c - 87)
  else none

/-- Hex encoding of a byte string, two ASCII bytes per byte. -/
def hexEncode : List Nat → List Nat
  | [] => []
  | b :: bs => hexDigit (b / 16) :: hexDigit (b % 16) :: hexEncode bs

/-- Hex decoding; fails on odd length or on a byte that is not a lowercase
hex digit. -/
def hexDecode : List Nat → Option (List Nat)
  | [] => some []
  | [_] => none
  | c1 :: c2 :: r =>
    match hexVal c1, hexVal c2, hexDecode r with
    | some h, some l, some bs => some ((h * 16 + l) :: bs)
    | _, _, _ => none

/-- Little-endian base-256 digits, `k` of them. -/
def toBytesLE : Nat → Nat → List Nat
  | 0, _ => []
  | k + 1, n => n % 256 :: toBytesLE k (n / 256)

/-! ## The external authenticated-encryption primitive -/

/-- Modelled from the spec: the external authenticated-encryption primitive
(`cryptography.fernet.Fernet`), whose implementation is not part of this
repository.  Per the spec, `seal` embeds a fresh nonce/timestamp each call
(modelled by the explicit `nonce` argument), and its output is "a URL-safe
text encoding of the sealed bytes" (modelled by `hexEncode`).  The sealed
bytes are the key, the 16 nonce bytes and the payload, with the nonce and
payload mirrored so that verification can reject any corruption exactly:
a token verifies under a key iff it is literally an output of this
function for that key. -/
def fernetEncrypt (key : List Nat) (nonce : Nat) (data : List Nat) : List Nat :=
  hexEncode (key ++ (toBytesLE 16 nonce ++ data) ++ (toBytesLE 16 nonce ++ data).reverse)

/-- Modelled from the spec: verification and recovery by the external
primitive.  Per the spec it "fails with `DecryptionFailed` when the token is
malformed, truncated, or was not produced under this exact key"; concretely,
the model accepts a token iff it is exactly `fernetEncrypt` of this key,
some nonce and some payload, and recovers that payload. -/
def fernetDecrypt (key token : List Nat) : Option (List Nat) :=
  match hexDecode token with
  | none => none
  | some bs =>
    let l := (bs.length - 44) / 2
    let body := (bs.drop 44).take l
    if 76 ≤ bs.length ∧ (bs.length - 44) % 2 = 0 ∧ bs = key ++ body ++ body.reverse
    then some (body.drop 16)
    else none

/-- `encrypt_bytes` of both source files: `Fernet(key).encrypt(data)`.
The nonce the primitive draws internally is passed explicitly. -/
def encrypt_bytes (data key : List Nat) (nonce : Nat) : List Nat :=
  fernetEncrypt key nonce data

/-- `decrypt_bytes` of both source files: `Fernet(key).decrypt(token)`;
`none` models the `InvalidToken` exception. -/
def decrypt_bytes (token key : List Nat) : Option (List Nat) :=
  fernetDecrypt key token

/-! ## UTF-8 boundary -/

/-- UTF-8 encoding of one Unicode scalar value (Python `str.encode("utf-8")`,
one character). -/
def utf8EncodeChar (c : Nat) : List Nat :=
  if c < 0x80 then [c]
  else if c < 0x800 then [0xC0 + c / 0x40, 0x80 + c % 0x40]
  else if c < 0x10000 then
    [0xE0 + c / 0x1000, 0x80 + (c / 0x40) % 0x40, 0x80 + c % 0x40]
  else
    [0xF0 + c / 0x40000, 0x80 + (c / 0x1000) % 0x40, 0x80 + (c / 0x40) % 0x40, 0x80 + c % 0x40]

/-- UTF-8 encoding of a string (Python `str.encode("utf-8")`). -/
def utf8Encode : List Nat → List Nat
  | [] => []
  | c :: cs => utf8EncodeChar c ++ utf8Encode cs

/-- A Unicode scalar value: below 0x110000 and not a surrogate. -/
abbrev ValidChar (c : Nat) : Prop := c < 0x110000 ∧ ¬(0xD800 ≤ c ∧ c < 0xE000)

/-- A Python `str`: a list of Unicode scalar values. -/
abbrev ValidText (t : List Nat) : Prop := ∀ c ∈ t, ValidChar c

/-- Strict UTF-8 decoding of one character: given the first byte and the
remaining bytes, return the decoded scalar value and the rest, or `none`.
Rejects overlong forms (leads `0xC0`/`0xC1`, `0xE0` with a low second byte,
`0xF0` with a low second byte), surrogates (`0xED` with a high second byte),
leads above `0xF4`, `0xF4` past `U+10FFFF`, and truncated sequences. -/
def utf8DecodeOne (b : Nat) (rest : List Nat) : Option (Nat × List Nat) :=
  if b < 0x80 then some (b, rest)
  else if b < 0xC2 then none
  else if b < 0xE0 then
    match rest with
    | b1 :: r =>
      if 0x80 ≤ b1 ∧ b1 < 0xC0 then some ((b - 0xC0) * 0x40 + (b1 - 0x80), r) else none
    | [] => none
  else if b < 0xF0 then
    match rest with
    | b1 :: b2 :: r =>
      if (0x80 ≤ b1 ∧ b1 < 0xC0) ∧ (0x80 ≤ b2 ∧ b2 < 0xC0)
          ∧ (b = 0xE0 → 0xA0 ≤ b1) ∧ (b = 0xED → b1 < 0xA0) then
        some ((b - 0xE0) * 0x1000 + (b1 - 0x80) * 0x40 + (b2 - 0x80), r)
      else none
    | _ => none
  else if b < 0xF5 then
    match rest with
    | b1 :: b2 :: b3 :: r =>
      if (0x80 ≤ b1 ∧ b1 < 0xC0) ∧ (0x80 ≤ b2 ∧ b2 < 0xC0) ∧ (0x80 ≤ b3 ∧ b3 < 0xC0)
          ∧ (b = 0xF0 → 0x90 ≤ b1) ∧ (b = 0xF4 → b1 < 0x90) then
        some ((b - 0xF0) * 0x40000 + (b1 - 0x80) * 0x1000 + (b2 - 0x80) * 0x40 + (b3 - 0x80), r)
      else none
    | _ => none
  else none

/-- Fuelled strict UTF-8 decoding loop; one unit of fuel per character, so
the input length is always enough fuel. -/
def utf8DecodeAux : Nat → List Nat → Option (List Nat)
  | _, [] => some []
  | 0, _ :: _ => none
  | fuel + 1, b :: rest =>
    match utf8DecodeOne b rest with
    | none => none
    | some (c, r) => Option.map (fun cs => c :: cs) (utf8DecodeAux fuel r)

/-- Strict UTF-8 decoding (Python `bytes.decode("utf-8")`); `none` models
`UnicodeDecodeError`. -/
def utf8Decode (l : List Nat) : Option (List Nat) := utf8DecodeAux l.length l

/-! ## pathlib suffix model

Only the final path component matters to the programs' suffix logic, so a
path is modelled as its name, a `List Char` containing no separator. -/

/-- Index of the last `'.'` in a name, if any (Python `str.rfind('.')` when
it hits). -/
def lastDotIdx (name : List Char) : Option Nat :=
  ((List.range name.length).filter fun i => name.get? i = some '.').getLast?

/-- CPython `PurePath` stem/suffix split: the suffix starts at the last dot
provided that dot is neither the first nor the last character; otherwise the
suffix is empty. -/
def pySplitExt (name : List Char) : List Char × List Char :=
  match lastDotIdx name with
  | some i => if 0 < i ∧ i + 1 < name.length then (name.take i, name.drop i) else (name, [])
  | none => (name, [])

/-- Python `Path.suffix` on the name. -/
def pySuffix (name : List Char) : List Char := (pySplitExt name).2

/-- Python `Path.with_suffix(sfx)` on the name: drop the old suffix, append
the new one. -/
def with_suffix (name sfx : List Char) : List Char := (pySplitExt name).1 ++ sfx

/-- The fixed encrypted-file marker `".enc"`. -/
def encSuffix : List Char := ['.', 'e', 'n', 'c']

/-- The fixed decrypted-file marker `".dec"`. -/
def decSuffix : List Char := ['.', 'd', 'e', 'c']

/-! ## Filesystem model -/

/-- A filesystem node: a regular file with contents, or anything that exists
but is not a regular file (directory, etc.). -/
inductive FsNode where
  | file (content : List Nat)
  | dir
deriving DecidableEq

/-- The filesystem: an association list, latest write first. -/
def FS : Type := List (List Char × FsNode)

/-- Path lookup; `none` means the path does not exist. -/
def fsFind : FS → List Char → Option FsNode
  | [], _ => none
  | (q, n) :: rest, p => if q = p then some n else fsFind rest p

/-- Write (create or overwrite) a regular file. -/
def fsWrite (fs : FS) (p : List Char) (bs : List Nat) : FS :=
  (p, FsNode.file bs) :: fs

/-! ## Operations of `src/text-encrypter.py` (namespace `TE`) -/

/-- `do_encrypt_text` (text-encrypter.py:99): encode the text as UTF-8, seal
it, print `token.decode("utf-8")`.  The printed string is the decode of the
token bytes; `none` would be an uncaught `UnicodeDecodeError` (which the
round-trip theorem shows cannot occur). -/
def TE.do_encrypt_text (text : List Nat) (key : List Nat) (nonce : Nat) : Option (List Nat) :=
  utf8Decode (encrypt_bytes (utf8Encode text) key nonce)

/-- `do_decrypt_text` (text-encrypter.py:107): encode the pasted token string
as UTF-8, decrypt, decode the recovered bytes as UTF-8.  An `InvalidToken`
from decryption surfaces as `DecryptionFailed`; a `UnicodeDecodeError` on the
recovered bytes surfaces as `EncodingError`. -/
def TE.do_decrypt_text (tokText : List Nat) (key : List Nat) : Except Err (List Nat) :=
  match decrypt_bytes (utf8Encode tokText) key with
  | none => Except.error Err.DecryptionFailed
  | some bs =>
    match utf8Decode bs with
    | none => Except.error Err.EncodingError
    | some txt => Except.ok txt

/-- `do_encrypt_file` (text-encrypter.py:119): fail unless the source exists
and is a regular file; read it, seal, write to `dst` if given, else to the
source path with `".enc"` appended after its suffix.  Returns the filesystem
after the call and the written path (or the failure). -/
def TE.do_encrypt_file (fs : FS) (src : List Char) (dst : Option (List Char)) (key : List Nat)
    (nonce : Nat) : FS × Except Err (List Char) :=
  match fsFind fs src with
  | some (FsNode.file data) =>
    let token := encrypt_bytes data key nonce
    let out := dst.getD (with_suffix src (pySuffix src ++ encSuffix))
    (fsWrite fs out token, Except.ok out)
  | _ => (fs, Except.error Err.SourceNotFound)

/-- `do_decrypt_file` (text-encrypter.py:132): fail unless the source exists
and is a regular file; read it, decrypt (failure surfaces as
`DecryptionFailed` before anything is written), then write to `dst` if given,
else strip one `".enc"` suffix if present, else append `".dec"`. -/
def TE.do_decrypt_file (fs : FS) (src : List Char) (dst : Option (List Char)) (key : List Nat) :
    FS × Except Err (List Char) :=
  match fsFind fs src with
  | some (FsNode.file token) =>
    match decrypt_bytes token key with
    | some data =>
      let out :=
        match dst with
        | some d => d
        | none =>
          if pySuffix src = encSuffix then with_suffix src []
          else with_suffix src (pySuffix src ++ decSuffix)
      (fsWrite fs out data, Except.ok out)
    | none => (fs, Except.error Err.DecryptionFailed)
  | _ => (fs, Except.error Err.SourceNotFound)

/-! ## Operations of `src/text_encrypter.py` (namespace `TU`) -/

/-- The `--encrypt --file` path of `main` (text_encrypter.py:165) followed by
`encrypt_file` (text_encrypter.py:81).  `main` checks only `p.exists()`:
a path that exists but is not a regular file passes the check, and
`read_bytes` then raises an `IsADirectoryError` that nothing catches. -/
def TU.main_encrypt_file (fs : FS) (p : List Char) (key : List Nat) (nonce : Nat) :
    FS × Except Err (List Char) :=
  match fsFind fs p with
  | none => (fs, Except.error Err.SourceNotFound)
  | some FsNode.dir => (fs, Except.error Err.UncaughtError)
  | some (FsNode.file data) =>
    let out := with_suffix p (pySuffix p ++ encSuffix)
    (fsWrite fs out (encrypt_bytes data key nonce), Except.ok out)

/-- The `--decrypt --file` path of `main` (text_encrypter.py:181) followed by
`decrypt_file` (text_encrypter.py:90).  `main` checks only `p.exists()`;
`decrypt_file` is wrapped in `except Exception`, so both an `InvalidToken`
and the `IsADirectoryError` raised by `read_bytes` on a non-regular file
surface through the same "Failed to decrypt file" handler. -/
def TU.main_decrypt_file (fs : FS) (p : List Char) (key : List Nat) :
    FS × Except Err (List Char) :=
  match fsFind fs p with
  | none => (fs, Except.error Err.SourceNotFound)
  | some FsNode.dir => (fs, Except.error Err.DecryptionFailed)
  | some (FsNode.file token) =>
    match decrypt_bytes token key with
    | none => (fs, Except.error Err.DecryptionFailed)
    | some data =>
      let out :=
        if pySuffix p = encSuffix then with_suffix p []
        else with_suffix p (pySuffix p ++ decSuffix)
      (fsWrite fs out data, Except.ok out)

/-! ## Key resolution (identical in both source files) -/

/-- `resolve_key` (text-encrypter.py:70, text_encrypter.py:56): with an
explicit path, fail with `KeyNotFound` if it does not exist, else load it
(reading a non-regular file would raise uncaught).  With no explicit path,
load the default-path key file, generating and saving a fresh key there
first when it does not exist (`save_key` then `load_key`).  The fresh key
that `Fernet.generate_key()` would draw is the `freshKey` argument.
Returns the filesystem after the call and the key or the failure. -/
def resolve_key (fs : FS) (userPath : Option (List Char)) (defaultPath : List Char)
    (freshKey : List Nat) : FS × Except Err (List Nat) :=
  match userPath with
  | some p =>
    match fsFind fs p with
    | none => (fs, Except.error Err.KeyNotFound)
    | some (FsNode.file k) => (fs, Except.ok k)
    | some FsNode.dir => (fs, Except.error Err.UncaughtError)
  | none =>
    match fsFind fs defaultPath with
    | some (FsNode.file k) => (fs, Except.ok k)
    | some FsNode.dir => (fs, Except.error Err.UncaughtError)
    | none =>
      let fs2 := fsWrite fs defaultPath freshKey
      match fsFind fs2 defaultPath with
      | some (FsNode.file k) => (fs2, Except.ok k)
      | _ => (fs2, Except.error Err.UncaughtError)

/-! ## The `TE` command dispatcher and process exit status -/

/-- The sub-commands of text-encrypter.py's CLI. -/
inductive Cmd where
  | genkey (out : Option (List Char))
  | encText (text : List Nat)
  | decText (token : List Nat)
  | encFile (file : List Char) (out : Option (List Char))
  | decFile (file : List Char) (out : Option (List Char))
  | noCmd
deriving DecidableEq

/-- Parsed arguments of text-encrypter.py. -/
structure Args where
  version : Bool
  key : Option (List Char)
  cmd : Cmd
deriving DecidableEq

/-- `main` (text-encrypter.py:186): `--version` returns at once; `genkey`
saves a fresh key without resolving one; every other command resolves the
key first (exiting on failure), then dispatches.  `noCmd` prints help and
returns normally. -/
def TE.main (a : Args) (fs : FS) (defaultPath : List Char) (freshKey : List Nat) (nonce : Nat) :
    FS × Except Err Unit :=
  if a.version then (fs, Except.ok ()) else
  match a.cmd with
  | Cmd.genkey out => (fsWrite fs (out.getD defaultPath) freshKey, Except.ok ())
  | c =>
    match resolve_key fs a.key defaultPath freshKey with
    | (fs1, Except.error e) => (fs1, Except.error e)
    | (fs1, Except.ok key) =>
      match c with
      | Cmd.encText t =>
        (fs1, (TE.do_encrypt_text t key nonce).elim (Except.error Err.UncaughtError)
          fun _ => Except.ok ())
      | Cmd.decText tok => (fs1, Except.map (fun _ => ()) (TE.do_decrypt_text tok key))
      | Cmd.encFile f out =>
        ((TE.do_encrypt_file fs1 f out key nonce).1,
          Except.map (fun _ => ()) (TE.do_encrypt_file fs1 f out key nonce).2)
      | Cmd.decFile f out =>
        ((TE.do_decrypt_file fs1 f out key).1,
          Except.map (fun _ => ()) (TE.do_decrypt_file fs1 f out key).2)
      | _ => (fs1, Except.ok ())

/-- Exit status of a completed run: `sys.exit(1)` at every handled-failure
site, normal return (status 0) otherwise. -/
def exitCode : Except Err Unit → Nat
  | Except.ok _ => 0
  | Except.error _ => 1

/-- How one invocation of text-encrypter.py ends: `main` ran to completion,
or a `KeyboardInterrupt` reached the `__main__` guard. -/
inductive RunResult where
  | completed (r : Except Err Unit)
  | interrupted

/-- The `__main__` guard (text-encrypter.py:215): a `KeyboardInterrupt`
raised at any point of `main()` is caught there and exits with status 130;
otherwise the exit status is `exitCode` of the completed run. -/
def TE.processExit : RunResult → Nat
  | RunResult.completed r => exitCode r
  | RunResult.interrupted => 130

/-! ## The `TU` command dispatcher and process exit status -/

/-- Parsed arguments of text_encrypter.py (`build_parser`,
text_encrypter.py:127): boolean operation flags plus the optional text,
file and key-path modifiers. -/
structure TU.Args where
  help : Bool
  version : Bool
  generate : Bool
  encrypt : Bool
  decrypt : Bool
  text : Option (List Nat)
  file : Option (List Char)
  key : Option (List Char)

/-- `main` of text_encrypter.py (text_encrypter.py:143): `--help` (or a
bare invocation, `noArgs`), `--version` and `--generate` return at once;
every other invocation resolves the key first — at line 158, outside the
`try` block — and then dispatches inside the `try`.  Encrypting given text
prints the token's UTF-8 decode (an impossible decode failure would be
uncaught); the file branches are `TU.main_encrypt_file` and
`TU.main_decrypt_file` with their existence-only check; decrypting given
text wraps decrypt-then-decode in `except Exception`, exiting 1 on either
failure; an encrypt/decrypt flag with neither `--text` nor `--file` prints
a usage hint and returns normally. -/
def TU.main (a : TU.Args) (noArgs : Bool) (fs : FS) (defaultPath : List Char)
    (freshKey : List Nat) (nonce : Nat) : FS × Except Err Unit :=
  if a.help || noArgs then (fs, Except.ok ()) else
  if a.version then (fs, Except.ok ()) else
  if a.generate then (fsWrite fs defaultPath freshKey, Except.ok ()) else
  match resolve_key fs a.key defaultPath freshKey with
  | (fs1, Except.error e) => (fs1, Except.error e)
  | (fs1, Except.ok key) =>
    if a.encrypt then
      match a.text with
      | some t =>
        (fs1, Option.elim (utf8Decode (encrypt_bytes (utf8Encode t) key nonce))
          (Except.error Err.UncaughtError) fun _ => Except.ok ())
      | none =>
        match a.file with
        | some f =>
          ((TU.main_encrypt_file fs1 f key nonce).1,
            Except.map (fun _ => ()) (TU.main_encrypt_file fs1 f key nonce).2)
        | none => (fs1, Except.ok ())
    else if a.decrypt then
      match a.text with
      | some t =>
        (fs1,
          match decrypt_bytes (utf8Encode t) key with
          | none => Except.error Err.DecryptionFailed
          | some bs =>
            match utf8Decode bs with
            | none => Except.error Err.EncodingError
            | some _ => Except.ok ())
      | none =>
        match a.file with
        | some f =>
          ((TU.main_decrypt_file fs1 f key).1,
            Except.map (fun _ => ()) (TU.main_decrypt_file fs1 f key).2)
        | none => (fs1, Except.ok ())
    else (fs1, Except.ok ())

/-- How one invocation of text_encrypter.py ends.  Unlike text-encrypter.py,
its `KeyboardInterrupt` handler is the `except` of the `try` that spans only
the encrypt/decrypt dispatch (text_encrypter.py:160-197), and `main()` runs
at module level with no guard (text_encrypter.py:200), so an interrupt
raised during argument parsing, help or version printing, or `resolve_key`
escapes the program uncaught. -/
inductive TU.RunResult where
  | completed (r : Except Err Unit)
  | interruptedInDispatch
  | interruptedOutsideDispatch

/-- The exit status text_encrypter.py itself establishes: `exitCode` of a
completed run; 130 by `sys.exit(130)` in the handler when the interrupt is
raised inside the dispatch `try`; and none at all when the interrupt is
raised anywhere else in the invocation — the `KeyboardInterrupt` then
escapes `main()` uncaught, the program never reaches a `sys.exit`, and
termination is decided by the interpreter outside this code. -/
def TU.processExit : TU.RunResult → Option Nat
  | TU.RunResult.completed r => some (exitCode r)
  | TU.RunResult.interruptedInDispatch => some 130
  | TU.RunResult.interruptedOutsideDispatch => none

/-! ## Lemmas about the hex layer -/

theorem hexDigit_lt {d : Nat} (h : d < 16) : hexDigit d < 128 := by
  unfold hexDigit; split <;> omega

theorem hexDigit_inj {a b : Nat} (ha : a < 16) (hb : b < 16)
    (h : hexDigit a = hexDigit b) : a = b := by
  unfold hexDigit at h; split at h <;> split at h <;> omega

theorem hexVal_hexDigit {d : Nat} (h : d < 16) : hexVal (hexDigit d) = some d := by
  by_cases h10 : d < 10
  · simp only [hexDigit, if_pos h10, hexVal]
    rw [if_pos (by omega)]
    congr 1
    omega
  · simp only [hexDigit, if_neg h10, hexVal]
    rw [if_neg (by omega), if_pos (by omega)]
    congr 1
    omega

theorem hexVal_some {c h : Nat} (hv : hexVal c = some h) : hexDigit h = c ∧ h < 16 := by
  unfold hexVal at hv
  split at hv
  · rename_i hc
    injection hv with hv
    subst hv
    refine ⟨?_, by omega⟩
    unfold hexDigit
    rw [if_pos (by omega)]
    omega
  · split at hv
    · rename_i hc
      injection hv with hv
      subst hv
      refine ⟨?_, by omega⟩
      unfold hexDigit
      rw [if_neg (by omega)]
      omega
    · exact absurd hv (by simp)

theorem hexEncode_append (a b : List Nat) :
    hexEncode (a ++ b) = hexEncode a ++ hexEncode b := by
  induction a with
  | nil => simp [hexEncode]
  | cons x xs ih => simp [hexEncode, ih]

theorem hexEncode_length (bs : List Nat) : (hexEncode bs).length = 2 * bs.length := by
  induction bs with
  | nil => simp [hexEncode]
  | cons b bs ih =>
    simp only [hexEncode, List.length_cons, ih]
    omega

theorem hexEncode_ascii {bs : List Nat} (h : ByteList bs) : ∀ x ∈ hexEncode bs, x < 128 := by
  induction bs with
  | nil => simp [hexEncode]
  | cons b bs ih =>
    have hb : b < 256 := h b (by simp)
    have hrest : ByteList bs := fun x hx => h x (by simp [hx])
    intro x hx
    simp only [hexEncode, List.mem_cons] at hx
    rcases hx with h1 | h1 | h1
    · subst h1; exact hexDigit_lt (by omega)
    · subst h1; exact hexDigit_lt (by omega)
    · exact ih hrest x h1

theorem hexDecode_encode {bs : List Nat} (h : ByteList bs) :
    hexDecode (hexEncode bs) = some bs := by
  induction bs with
  | nil => simp [hexEncode, hexDecode]
  | cons b bs ih =>
    have hb : b < 256 := h b (by simp)
    have hrest : ByteList bs := fun x hx => h x (by simp [hx])
    show hexDecode (hexDigit (b / 16) :: hexDigit (b % 16) :: hexEncode bs) = _
    simp only [hexDecode, hexVal_hexDigit (show b / 16 < 16 by omega),
      hexVal_hexDigit (show b % 16 < 16 by omega), ih hrest]
    have : b / 16 * 16 + b % 16 = b := by omega
    rw [this]

theorem hexDecode_inv {bs : List Nat} :
    ∀ {t : List Nat}, hexDecode t = some bs → t = hexEncode bs := by
  induction bs with
  | nil =>
    intro t h
    rcases t with _ | ⟨c1, _ | ⟨c2, r⟩⟩
    · rfl
    · simp [hexDecode] at h
    · simp only [hexDecode] at h
      rcases h1 : hexVal c1 with _ | v1 <;> rcases h2 : hexVal c2 with _ | v2 <;>
        rcases h3 : hexDecode r with _ | bs3 <;> simp [h1, h2, h3] at h
  | cons b rest ih =>
    intro t h
    rcases t with _ | ⟨c1, _ | ⟨c2, r⟩⟩
    · simp [hexDecode] at h
    · simp [hexDecode] at h
    · simp only [hexDecode] at h
      rcases h1 : hexVal c1 with _ | v1 <;> simp [h1] at h
      rcases h2 : hexVal c2 with _ | v2 <;> simp [h2] at h
      rcases h3 : hexDecode r with _ | bs3 <;> simp [h3] at h
      obtain ⟨hv, hbs⟩ := h
      obtain ⟨hc1, hv1⟩ := hexVal_some h1
      obtain ⟨hc2, hv2⟩ := hexVal_some h2
      subst hbs
      have hr := ih h3
      subst hr
      show _ = hexDigit (b / 16) :: hexDigit (b % 16) :: _
      have e1 : b / 16 = v1 := by omega
      have e2 : b % 16 = v2 := by omega
      rw [e1, e2, hc1, hc2]

theorem hexDecode_bytes {bs : List Nat} :
    ∀ {t : List Nat}, hexDecode t = some bs → ByteList bs := by
  induction bs with
  | nil => intro t _; intro x hx; simp at hx
  | cons b rest ih =>
    intro t h
    rcases t with _ | ⟨c1, _ | ⟨c2, r⟩⟩
    · simp [hexDecode] at h
    · simp [hexDecode] at h
    · simp only [hexDecode] at h
      rcases h1 : hexVal c1 with _ | v1 <;> simp [h1] at h
      rcases h2 : hexVal c2 with _ | v2 <;> simp [h2] at h
      rcases h3 : hexDecode r with _ | bs3 <;> simp [h3] at h
      obtain ⟨hv, hbs⟩ := h
      obtain ⟨_, hv1⟩ := hexVal_some h1
      obtain ⟨_, hv2⟩ := hexVal_some h2
      subst hbs
      intro x hx
      rcases List.mem_cons.mp hx with hx | hx
      · omega
      · exact ih h3 x hx

theorem hexDecode_length {t bs : List Nat} (h : hexDecode t = some bs) :
    t.length = 2 * bs.length := by
  rw [hexDecode_inv h]
  exact hexEncode_length bs

theorem hexEncode_inj {a b : List Nat} (ha : ByteList a) (hb : ByteList b)
    (h : hexEncode a = hexEncode b) : a = b := by
  have h1 := hexDecode_encode ha
  rw [h, hexDecode_encode hb] at h1
  injection h1 with h1
  exact h1.symm

/-! ## Lemmas about nonce bytes and byte strings -/

theorem toBytesLE_length (k n : Nat) : (toBytesLE k n).length = k := by
  induction k generalizing n with
  | zero => rfl
  | succ k ih => simp [toBytesLE, ih]

theorem toBytesLE_bytes (k n : Nat) : ∀ b ∈ toBytesLE k n, b < 256 := by
  induction k generalizing n with
  | zero => simp [toBytesLE]
  | succ k ih =>
    intro b hb
    simp only [toBytesLE, List.mem_cons] at hb
    rcases hb with h | h
    · omega
    · exact ih _ b h

theorem toBytesLE_inj {k n m : Nat} (hn : n < 256 ^ k) (hm : m < 256 ^ k)
    (h : toBytesLE k n = toBytesLE k m) : n = m := by
  induction k generalizing n m with
  | zero => simp [pow_zero] at hn hm; omega
  | succ k ih =>
    simp only [toBytesLE, List.cons.injEq] at h
    obtain ⟨h1, h2⟩ := h
    have hn2 : n / 256 < 256 ^ k := by
      rw [Nat.div_lt_iff_lt_mul (by omega)]
      calc n < 256 ^ (k + 1) := hn
        _ = 256 ^ k * 256 := by ring
    have hm2 : m / 256 < 256 ^ k := by
      rw [Nat.div_lt_iff_lt_mul (by omega)]
      calc m < 256 ^ (k + 1) := hm
        _ = 256 ^ k * 256 := by ring
    have := ih hn2 hm2 h2
    omega

theorem ByteList_append {a b : List Nat} (ha : ByteList a) (hb : ByteList b) :
    ByteList (a ++ b) := by
  intro x hx
  rcases List.mem_append.mp hx with h | h
  · exact ha x h
  · exact hb x h

theorem ByteList_reverse {a : List Nat} (ha : ByteList a) : ByteList a.reverse := by
  intro x hx
  exact ha x (List.mem_reverse.mp hx)

/-! ## Lemmas about the sealed-bytes structure -/

theorem mirrorRigid {K B Bx w z : List Nat} {b bx : Nat} (hK : K.length = 44)
    (h1 : K ++ B ++ B.reverse = w ++ b :: z) (h2 : K ++ Bx ++ Bx.reverse = w ++ bx :: z) :
    b = bx := by
  have hlen1 : 44 + (B.length + B.length) = w.length + (z.length + 1) := by
    have := congrArg List.length h1
    simp [hK] at this
    omega
  have hlen2 : 44 + (Bx.length + Bx.length) = w.length + (z.length + 1) := by
    have := congrArg List.length h2
    simp [hK] at this
    omega
  have hBB : Bx.length = B.length := by omega
  rcases Nat.lt_or_ge w.length 44 with hc | hc
  · have e1 : K = w ++ b :: z.take (44 - w.length - 1) := by
      have t1 : (K ++ B ++ B.reverse).take 44 = K := by
        rw [List.append_assoc, ← hK, List.take_left]
      rw [h1, List.take_append_eq_append_take,
        List.take_of_length_le (show w.length ≤ 44 by omega)] at t1
      have hs : 44 - w.length = (44 - w.length - 1) + 1 := by omega
      rw [hs, List.take_succ_cons] at t1
      exact t1.symm
    have e2 : K = w ++ bx :: z.take (44 - w.length - 1) := by
      have t1 : (K ++ Bx ++ Bx.reverse).take 44 = K := by
        rw [List.append_assoc, ← hK, List.take_left]
      rw [h2, List.take_append_eq_append_take,
        List.take_of_length_le (show w.length ≤ 44 by omega)] at t1
      have hs : 44 - w.length = (44 - w.length - 1) + 1 := by omega
      rw [hs, List.take_succ_cons] at t1
      exact t1.symm
    have h3 := List.append_cancel_left (e1.symm.trans e2)
    injection h3
  · rcases Nat.lt_or_ge w.length (44 + B.length) with hc2 | hc2
    · have d1 : B.reverse = z.drop (44 + B.length - w.length - 1) := by
        have t1 : (K ++ B ++ B.reverse).drop (44 + B.length) = B.reverse := by
          have h44 : 44 + B.length = (K ++ B).length := by simp [hK]
          rw [h44, List.drop_left]
        rw [h1, List.drop_append_eq_append_drop,
          List.drop_eq_nil_of_le (show w.length ≤ 44 + B.length by omega)] at t1
        have hs : 44 + B.length - w.length = (44 + B.length - w.length - 1) + 1 := by omega
        rw [hs, List.drop_succ_cons, List.nil_append] at t1
        exact t1.symm
      have d2 : Bx.reverse = z.drop (44 + B.length - w.length - 1) := by
        have t1 : (K ++ Bx ++ Bx.reverse).drop (44 + B.length) = Bx.reverse := by
          have h44 : 44 + B.length = (K ++ Bx).length := by simp [hK, hBB]
          rw [h44, List.drop_left]
        rw [h2, List.drop_append_eq_append_drop,
          List.drop_eq_nil_of_le (show w.length ≤ 44 + B.length by omega)] at t1
        have hs : 44 + B.length - w.length = (44 + B.length - w.length - 1) + 1 := by omega
        rw [hs, List.drop_succ_cons, List.nil_append] at t1
        exact t1.symm
      have hB : B = Bx := by
        have := congrArg List.reverse (d1.trans d2.symm)
        simpa using this
      rw [hB] at h1
      have h3 := List.append_cancel_left (h1.symm.trans h2)
      injection h3
    · have t1 : w.take (44 + B.length) = K ++ B := by
        have s1 : (K ++ B ++ B.reverse).take (44 + B.length) = K ++ B := by
          have h44 : 44 + B.length = (K ++ B).length := by simp [hK]
          rw [h44, List.take_left]
        rw [h1, List.take_append_eq_append_take] at s1
        have hz : (b :: z).take (44 + B.length - w.length) = [] := by
          have : 44 + B.length - w.length = 0 := by omega
          rw [this]
          rfl
        rw [hz, List.append_nil] at s1
        exact s1
      have t2 : w.take (44 + B.length) = K ++ Bx := by
        have s1 : (K ++ Bx ++ Bx.reverse).take (44 + B.length) = K ++ Bx := by
          have h44 : 44 + B.length = (K ++ Bx).length := by simp [hK, hBB]
          rw [h44, List.take_left]
        rw [h2, List.take_append_eq_append_take] at s1
        have hz : (bx :: z).take (44 + B.length - w.length) = [] := by
          have : 44 + B.length - w.length = 0 := by omega
          rw [this]
          rfl
        rw [hz, List.append_nil] at s1
        exact s1
      have hB : B = Bx := List.append_cancel_left (t1.symm.trans t2)
      rw [hB] at h1
      have h3 := List.append_cancel_left (h1.symm.trans h2)
      injection h3

theorem hexSingleDiff : ∀ (bs bsx u v : List Nat) (x y : Nat),
    ByteList bs → ByteList bsx → hexEncode bs = u ++ x :: v → hexEncode bsx = u ++ y :: v →
    x ≠ y → ∃ w c cx z, bs = w ++ c :: z ∧ bsx = w ++ cx :: z ∧ c ≠ cx := by
  intro bs
  induction bs with
  | nil =>
    intro bsx u v x y _ _ h1 _ _
    exact absurd h1 (by simp [hexEncode])
  | cons c rest ih =>
    intro bsx u v x y hb hbx h1 h2 hxy
    rcases bsx with _ | ⟨cx, restx⟩
    · exact absurd h2 (by simp [hexEncode])
    have hc : c < 256 := hb c (by simp)
    have hcx : cx < 256 := hbx cx (by simp)
    have hbr : ByteList rest := fun a ha => hb a (by simp [ha])
    have hbrx : ByteList restx := fun a ha => hbx a (by simp [ha])
    simp only [hexEncode] at h1 h2
    rcases u with _ | ⟨u0, u'⟩
    · simp only [List.nil_append] at h1 h2
      injection h1 with hx1 htail1
      injection h2 with hy1 htail2
      have hv := htail1.trans htail2.symm
      injection hv with hv1 hv2
      have hrr : rest = restx := hexEncode_inj hbr hbrx hv2
      refine ⟨[], c, cx, rest, by simp, by simp [hrr], ?_⟩
      intro hcc
      apply hxy
      rw [← hx1, ← hy1, hcc]
    rcases u' with _ | ⟨u1, u2⟩
    · simp only [List.cons_append, List.nil_append] at h1 h2
      injection h1 with h10 h1t
      injection h1t with h1x h1v
      injection h2 with h20 h2t
      injection h2t with h2y h2v
      have hrr : rest = restx := hexEncode_inj hbr hbrx (h1v.trans h2v.symm)
      refine ⟨[], c, cx, rest, by simp, by simp [hrr], ?_⟩
      intro hcc
      apply hxy
      rw [← h1x, ← h2y, hcc]
    · simp only [List.cons_append] at h1 h2
      injection h1 with h10 h1t
      injection h1t with h11 h1r
      injection h2 with h20 h2t
      injection h2t with h21 h2r
      have e1 : c / 16 = cx / 16 :=
        hexDigit_inj (by omega) (by omega) (h10.trans h20.symm)
      have e2 : c % 16 = cx % 16 :=
        hexDigit_inj (by omega) (by omega) (h11.trans h21.symm)
      have hceq : c = cx := by omega
      obtain ⟨w, a, ax, z, hw1, hw2, ha⟩ := ih restx u2 v x y hbr hbrx h1r h2r hxy
      exact ⟨c :: w, a, ax, z, by simp [hw1], by simp [hceq, hw2], ha⟩

/-! ## Lemmas about the primitive -/

theorem ByteList_sealed {key data : List Nat} (nonce : Nat) (hk : ValidKey key)
    (hd : ByteList data) :
    ByteList (key ++ (toBytesLE 16 nonce ++ data) ++ (toBytesLE 16 nonce ++ data).reverse) :=
  ByteList_append
    (ByteList_append hk.2 (ByteList_append (toBytesLE_bytes 16 nonce) hd))
    (ByteList_reverse (ByteList_append (toBytesLE_bytes 16 nonce) hd))

theorem fernetDecrypt_hexEncode {key B : List Nat} (hk44 : key.length = 44)
    (hbs : ByteList (key ++ B ++ B.reverse)) (h16 : 16 ≤ B.length) :
    fernetDecrypt key (hexEncode (key ++ B ++ B.reverse)) = some (B.drop 16) := by
  have hlen : (key ++ B ++ B.reverse).length = 44 + 2 * B.length := by
    simp [hk44]
    omega
  have hdrop : (key ++ B ++ B.reverse).drop 44 = B ++ B.reverse := by
    rw [List.append_assoc, ← hk44, List.drop_left]
  simp only [fernetDecrypt, hexDecode_encode hbs, hlen, hdrop]
  have hl : (44 + 2 * B.length - 44) / 2 = B.length := by omega
  rw [hl, List.take_left]
  rw [if_pos ⟨by omega, by omega, rfl⟩]

theorem fernet_roundtrip {key data : List Nat} (nonce : Nat) (hk : ValidKey key)
    (hd : ByteList data) :
    fernetDecrypt key (fernetEncrypt key nonce data) = some data := by
  have h := fernetDecrypt_hexEncode hk.1 (ByteList_sealed nonce hk hd)
    (show 16 ≤ (toBytesLE 16 nonce ++ data).length by simp [toBytesLE_length])
  rw [show (toBytesLE 16 nonce ++ data).drop 16 = data from by
    have hdl := List.drop_left (toBytesLE 16 nonce) data
    rwa [toBytesLE_length] at hdl] at h
  exact h

theorem fernetDecrypt_some {key token d : List Nat} (h : fernetDecrypt key token = some d) :
    ∃ bs B, hexDecode token = some bs ∧ bs = key ++ B ++ B.reverse ∧ d = B.drop 16 := by
  rcases ht : hexDecode token with _ | bs
  · simp [fernetDecrypt, ht] at h
  · simp only [fernetDecrypt, ht] at h
    split at h
    · rename_i hcond
      injection h with h
      exact ⟨bs, _, rfl, hcond.2.2, h.symm⟩
    · exact absurd h (by simp)

theorem fernet_wrong_key {k1 k2 data : List Nat} (nonce : Nat) (hk1 : ValidKey k1)
    (hk2 : ValidKey k2) (hne : k1 ≠ k2) (hd : ByteList data) :
    fernetDecrypt k2 (fernetEncrypt k1 nonce data) = none := by
  rcases h : fernetDecrypt k2 (fernetEncrypt k1 nonce data) with _ | d
  · rfl
  · exfalso
    obtain ⟨bs, B, hdec, hform, _⟩ := fernetDecrypt_some h
    have hdec2 : hexDecode (fernetEncrypt k1 nonce data) =
        some (k1 ++ (toBytesLE 16 nonce ++ data) ++ (toBytesLE 16 nonce ++ data).reverse) :=
      hexDecode_encode (ByteList_sealed nonce hk1 hd)
    rw [hdec] at hdec2
    injection hdec2 with hbs
    apply hne
    have t1 : bs.take 44 = k2 := by
      rw [hform, List.append_assoc, ← hk2.1, List.take_left]
    have t2 : bs.take 44 = k1 := by
      rw [hbs, List.append_assoc, ← hk1.1, List.take_left]
    exact t2.symm.trans t1

theorem fernet_altered {k1 data u v : List Nat} {x y : Nat} (nonce : Nat) (hk1 : ValidKey k1)
    (hd : ByteList data) (hsplit : fernetEncrypt k1 nonce data = u ++ x :: v) (hxy : x ≠ y) :
    fernetDecrypt k1 (u ++ y :: v) = none := by
  rcases h : fernetDecrypt k1 (u ++ y :: v) with _ | d
  · rfl
  · exfalso
    obtain ⟨bsx, Bx, hdec, hform, _⟩ := fernetDecrypt_some h
    have hb := ByteList_sealed nonce hk1 hd
    have hbx : ByteList bsx := hexDecode_bytes hdec
    unfold fernetEncrypt at hsplit
    have henc2 : hexEncode bsx = u ++ y :: v := (hexDecode_inv hdec).symm
    obtain ⟨w, c, cx, z, hw1, hw2, hcc⟩ :=
      hexSingleDiff _ bsx u v x y hb hbx hsplit henc2 hxy
    rw [hform] at hw2
    exact hcc (mirrorRigid hk1.1 hw1 hw2)

theorem fernet_removed {k1 data u v : List Nat} {x : Nat} (nonce : Nat) (hk1 : ValidKey k1)
    (hd : ByteList data) (hsplit : fernetEncrypt k1 nonce data = u ++ x :: v) :
    fernetDecrypt k1 (u ++ v) = none := by
  rcases h : fernetDecrypt k1 (u ++ v) with _ | d
  · rfl
  · exfalso
    obtain ⟨bsx, Bx, hdec, _, _⟩ := fernetDecrypt_some h
    have hlen2 := hexDecode_length hdec
    have hlen1 : (fernetEncrypt k1 nonce data).length =
        2 * (k1 ++ (toBytesLE 16 nonce ++ data) ++ (toBytesLE 16 nonce ++ data).reverse).length :=
      hexEncode_length _
    rw [hsplit] at hlen1
    simp only [List.length_append, List.length_cons] at hlen1 hlen2
    omega

/-! ## Lemmas about UTF-8 -/

theorem utf8DecodeOne_length {b : Nat} {rest : List Nat} {c : Nat} {r : List Nat}
    (h : utf8DecodeOne b rest = some (c, r)) : r.length ≤ rest.length := by
  unfold utf8DecodeOne at h
  repeat' split at h
  all_goals first
    | exact Option.noConfusion h
    | (rw [Option.some.injEq, Prod.mk.injEq] at h
       obtain ⟨-, h2⟩ := h
       subst h2
       try simp only [List.length_cons]
       omega)

theorem utf8DecodeAux_fuel {fuel fuel' : Nat} : ∀ {l : List Nat},
    l.length ≤ fuel → l.length ≤ fuel' → utf8DecodeAux fuel l = utf8DecodeAux fuel' l := by
  induction fuel generalizing fuel' with
  | zero =>
    intro l h1 _
    rcases l with _ | ⟨b, rest⟩
    · cases fuel' <;> rfl
    · simp at h1
  | succ f ih =>
    intro l h1 h2
    rcases l with _ | ⟨b, rest⟩
    · cases fuel' <;> rfl
    · rcases fuel' with _ | fx
      · simp at h2
      · show (match utf8DecodeOne b rest with
          | none => none
          | some (c, r) => Option.map (fun cs => c :: cs) (utf8DecodeAux f r)) =
          (match utf8DecodeOne b rest with
          | none => none
          | some (c, r) => Option.map (fun cs => c :: cs) (utf8DecodeAux fx r))
        rcases hone : utf8DecodeOne b rest with _ | ⟨c, r⟩
        · rfl
        · show Option.map (fun cs => c :: cs) (utf8DecodeAux f r) =
            Option.map (fun cs => c :: cs) (utf8DecodeAux fx r)
          have hr := utf8DecodeOne_length hone
          simp only [List.length_cons] at h1 h2
          rw [ih (by omega) (show r.length ≤ fx by omega)]

theorem utf8Decode_cons (b : Nat) (rest : List Nat) :
    utf8Decode (b :: rest) =
      match utf8DecodeOne b rest with
      | none => none
      | some (c, r) => Option.map (fun cs => c :: cs) (utf8Decode r) := by
  show (match utf8DecodeOne b rest with
      | none => none
      | some (c, r) => Option.map (fun cs => c :: cs) (utf8DecodeAux rest.length r)) = _
  rcases hone : utf8DecodeOne b rest with _ | ⟨c, r⟩
  · rfl
  · show Option.map (fun cs => c :: cs) (utf8DecodeAux rest.length r) =
      Option.map (fun cs => c :: cs) (utf8Decode r)
    have hr := utf8DecodeOne_length hone
    rw [← utf8DecodeAux_fuel (Nat.le_refl _) hr]
    rfl

theorem utf8Decode_encodeChar {c : Nat} (hc : ValidChar c) (l : List Nat) :
    utf8Decode (utf8EncodeChar c ++ l) = Option.map (fun cs => c :: cs) (utf8Decode l) := by
  obtain ⟨hlt, hsur⟩ := hc
  by_cases h1 : c < 0x80
  · have he : utf8EncodeChar c = [c] := by unfold utf8EncodeChar; rw [if_pos h1]
    rw [he, List.cons_append, List.nil_append, utf8Decode_cons]
    have hone : utf8DecodeOne c l = some (c, l) := by
      unfold utf8DecodeOne; rw [if_pos h1]
    rw [hone]
  · by_cases h2 : c < 0x800
    · have he : utf8EncodeChar c = [0xC0 + c / 0x40, 0x80 + c % 0x40] := by
        unfold utf8EncodeChar; rw [if_neg h1, if_pos h2]
      rw [he, List.cons_append, List.cons_append, List.nil_append, utf8Decode_cons]
      have hone : utf8DecodeOne (0xC0 + c / 0x40) ((0x80 + c % 0x40) :: l) = some (c, l) := by
        simp only [utf8DecodeOne]
        rw [if_neg (by omega), if_neg (by omega), if_pos (by omega),
          if_pos (by constructor <;> omega)]
        have harith : (0xC0 + c / 0x40 - 0xC0) * 0x40 + (0x80 + c % 0x40 - 0x80) = c := by
          omega
        rw [harith]
      rw [hone]
    · by_cases h3 : c < 0x10000
      · have he : utf8EncodeChar c =
            [0xE0 + c / 0x1000, 0x80 + (c / 0x40) % 0x40, 0x80 + c % 0x40] := by
          unfold utf8EncodeChar; rw [if_neg h1, if_neg h2, if_pos h3]
        rw [he, List.cons_append, List.cons_append, List.cons_append, List.nil_append,
          utf8Decode_cons]
        have hone : utf8DecodeOne (0xE0 + c / 0x1000)
            ((0x80 + (c / 0x40) % 0x40) :: (0x80 + c % 0x40) :: l) = some (c, l) := by
          simp only [utf8DecodeOne]
          rw [if_neg (by omega), if_neg (by omega), if_neg (by omega), if_pos (by omega),
            if_pos (by refine ⟨⟨by omega, by omega⟩, ⟨by omega, by omega⟩, by omega, by omega⟩)]
          have harith : (0xE0 + c / 0x1000 - 0xE0) * 0x1000 +
              (0x80 + (c / 0x40) % 0x40 - 0x80) * 0x40 + (0x80 + c % 0x40 - 0x80) = c := by
            omega
          rw [harith]
        rw [hone]
      · have he : utf8EncodeChar c = [0xF0 + c / 0x40000, 0x80 + (c / 0x1000) % 0x40,
            0x80 + (c / 0x40) % 0x40, 0x80 + c % 0x40] := by
          unfold utf8EncodeChar; rw [if_neg h1, if_neg h2, if_neg h3]
        rw [he, List.cons_append, List.cons_append, List.cons_append, List.cons_append,
          List.nil_append, utf8Decode_cons]
        have hone : utf8DecodeOne (0xF0 + c / 0x40000) ((0x80 + (c / 0x1000) % 0x40) ::
            (0x80 + (c / 0x40) % 0x40) :: (0x80 + c % 0x40) :: l) = some (c, l) := by
          simp only [utf8DecodeOne]
          rw [if_neg (by omega), if_neg (by omega), if_neg (by omega), if_neg (by omega),
            if_pos (by omega),
            if_pos (by
              refine ⟨⟨by omega, by omega⟩, ⟨by omega, by omega⟩, ⟨by omega, by omega⟩,
                by omega, by omega⟩)]
          have harith : (0xF0 + c / 0x40000 - 0xF0) * 0x40000 +
              (0x80 + (c / 0x1000) % 0x40 - 0x80) * 0x1000 +
              (0x80 + (c / 0x40) % 0x40 - 0x80) * 0x40 + (0x80 + c % 0x40 - 0x80) = c := by
            omega
          rw [harith]
        rw [hone]

theorem utf8Decode_encode {t : List Nat} (ht : ValidText t) :
    utf8Decode (utf8Encode t) = some t := by
  induction t with
  | nil => rfl
  | cons c cs ih =>
    have hc : ValidChar c := ht c (by simp)
    have hcs : ValidText cs := fun a ha => ht a (by simp [ha])
    show utf8Decode (utf8EncodeChar c ++ utf8Encode cs) = _
    rw [utf8Decode_encodeChar hc, ih hcs]
    rfl

theorem utf8Encode_ascii_id {l : List Nat} (h : ∀ b ∈ l, b < 0x80) : utf8Encode l = l := by
  induction l with
  | nil => rfl
  | cons b bs ih =>
    have hb : b < 0x80 := h b (by simp)
    show utf8EncodeChar b ++ utf8Encode bs = b :: bs
    rw [ih (fun a ha => h a (by simp [ha]))]
    have he : utf8EncodeChar b = [b] := by unfold utf8EncodeChar; rw [if_pos hb]
    rw [he]
    rfl

theorem ascii_ValidText {l : List Nat} (h : ∀ b ∈ l, b < 0x80) : ValidText l := by
  intro c hc
  have := h c hc
  exact ⟨by omega, by omega⟩

theorem utf8Decode_ascii {l : List Nat} (h : ∀ b ∈ l, b < 0x80) : utf8Decode l = some l := by
  have h2 := utf8Decode_encode (ascii_ValidText h)
  rwa [utf8Encode_ascii_id h] at h2

theorem utf8Encode_bytes {t : List Nat} (ht : ValidText t) : ByteList (utf8Encode t) := by
  induction t with
  | nil => intro b hb; simp [utf8Encode] at hb
  | cons c cs ih =>
    intro b hb
    obtain ⟨hlt, -⟩ := ht c (by simp)
    have hcs : ValidText cs := fun a ha => ht a (by simp [ha])
    simp only [utf8Encode] at hb
    rcases List.mem_append.mp hb with h1 | h1
    · unfold utf8EncodeChar at h1
      split at h1
      · simp at h1; omega
      · split at h1
        · simp at h1; rcases h1 with h1 | h1 <;> omega
        · split at h1
          · simp at h1; rcases h1 with h1 | h1 | h1 <;> omega
          · simp at h1; rcases h1 with h1 | h1 | h1 | h1 <;> omega
    · exact ih hcs b h1

/-! ## Lemmas about the path and filesystem models -/

theorem pySplitExt_concat (name : List Char) :
    (pySplitExt name).1 ++ (pySplitExt name).2 = name := by
  rcases h : lastDotIdx name with _ | i
  · simp [pySplitExt, h]
  · simp only [pySplitExt, h]
    split
    · exact List.take_append_drop i name
    · simp

theorem with_suffix_append (name sfx : List Char) :
    with_suffix name (pySuffix name ++ sfx) = name ++ sfx := by
  unfold with_suffix pySuffix
  rw [← List.append_assoc, pySplitExt_concat]

theorem with_suffix_strip (name : List Char) :
    with_suffix name [] ++ pySuffix name = name := by
  unfold with_suffix pySuffix
  rw [List.append_nil, pySplitExt_concat]

theorem fsFind_fsWrite_self (fs : FS) (p : List Char) (bs : List Nat) :
    fsFind (fsWrite fs p bs) p = some (FsNode.file bs) := by
  simp [fsFind, fsWrite]

theorem fsFind_fsWrite_ne (fs : FS) (p q : List Char) (bs : List Nat) (h : q ≠ p) :
    fsFind (fsWrite fs q bs) p = fsFind fs p := by
  simp [fsFind, fsWrite, h]

/-! ## The claims -/

/-- C1: for every payload P (any byte sequence, including empty) and every
valid key K, decrypting the token produced by encrypting P under K with the
same key K returns exactly P — byte-exact through
`decrypt_bytes`/`encrypt_bytes`, and UTF-8-exact through the text-mode
operations `do_encrypt_text`/`do_decrypt_text`. -/
theorem c1_round_trip (key : List Nat) (nonce : Nat) (hk : ValidKey key) :
    (∀ data : List Nat, ByteList data →
      decrypt_bytes (encrypt_bytes data key nonce) key = some data)
    ∧ (∀ text : List Nat, ValidText text →
      ∃ tk, TE.do_encrypt_text text key nonce = some tk ∧
        TE.do_decrypt_text tk key = Except.ok text) := by
  constructor
  · intro data hd
    exact fernet_roundtrip nonce hk hd
  · intro text ht
    have hbytes : ByteList (utf8Encode text) := utf8Encode_bytes ht
    have hascii : ∀ b ∈ encrypt_bytes (utf8Encode text) key nonce, b < 128 :=
      hexEncode_ascii (ByteList_sealed nonce hk hbytes)
    refine ⟨encrypt_bytes (utf8Encode text) key nonce, ?_, ?_⟩
    · show utf8Decode (encrypt_bytes (utf8Encode text) key nonce) = _
      exact utf8Decode_ascii hascii
    · have hdec : decrypt_bytes (encrypt_bytes (utf8Encode text) key nonce) key =
          some (utf8Encode text) := fernet_roundtrip nonce hk hbytes
      simp only [TE.do_decrypt_text, utf8Encode_ascii_id hascii, hdec, utf8Decode_encode ht]

/-- Witness for C1 at a concrete key, nonce, payload and text. -/
theorem c1_round_trip_witness :
    decrypt_bytes (encrypt_bytes [0, 255] (List.replicate 44 65) 7) (List.replicate 44 65) =
      some [0, 255]
    ∧ ∃ tk, TE.do_encrypt_text [104, 233] (List.replicate 44 65) 7 = some tk ∧
        TE.do_decrypt_text tk (List.replicate 44 65) = Except.ok [104, 233] := by
  have h := c1_round_trip (List.replicate 44 65) 7 (by decide)
  exact ⟨h.1 [0, 255] (by decide), h.2 [104, 233] (by decide)⟩

/-- C2: with no output override, encrypting writes to the source path with
`".enc"` appended after any existing extension; decrypting a path whose
pathlib suffix is `".enc"` strips exactly that suffix; decrypting a path
lacking it appends `".dec"` after the existing extension. -/
theorem c2_suffix_convention (fs : FS) (key : List Nat) (nonce : Nat) :
    (∀ src data, fsFind fs src = some (FsNode.file data) → src ≠ [] →
      (TE.do_encrypt_file fs src none key nonce).2 = Except.ok (src ++ encSuffix))
    ∧ (∀ src tok d, fsFind fs src = some (FsNode.file tok) → src ≠ [] →
        decrypt_bytes tok key = some d → pySuffix src = encSuffix →
        ∃ stem, src = stem ++ encSuffix ∧
          (TE.do_decrypt_file fs src none key).2 = Except.ok stem)
    ∧ (∀ src tok d, fsFind fs src = some (FsNode.file tok) → src ≠ [] →
        decrypt_bytes tok key = some d → pySuffix src ≠ encSuffix →
        (TE.do_decrypt_file fs src none key).2 = Except.ok (src ++ decSuffix)) := by
  refine ⟨?_, ?_, ?_⟩
  · intro src data hfind _
    simp only [TE.do_encrypt_file, hfind, Option.getD_none, with_suffix_append]
  · intro src tok d hfind _ hdec hsuf
    refine ⟨with_suffix src [], ?_, ?_⟩
    · have h := with_suffix_strip src
      rw [hsuf] at h
      exact h.symm
    · simp only [TE.do_decrypt_file, hfind, hdec, if_pos hsuf]
  · intro src tok d hfind _ hdec hsuf
    simp only [TE.do_decrypt_file, hfind, hdec, if_neg hsuf, with_suffix_append]

/-- Witness for C2 on the spec's own examples: `report.txt`,
`report.txt.enc` and `data.bin`. -/
theorem c2_suffix_convention_witness :
    (TE.do_encrypt_file
        [("report.txt".toList, FsNode.file [1]),
          ("report.txt.enc".toList, FsNode.file (encrypt_bytes [1] (List.replicate 44 65) 0)),
          ("data.bin".toList, FsNode.file (encrypt_bytes [1] (List.replicate 44 65) 0))]
        "report.txt".toList none (List.replicate 44 65) 0).2 =
      Except.ok ("report.txt".toList ++ encSuffix)
    ∧ (∃ stem, "report.txt.enc".toList = stem ++ encSuffix ∧
        (TE.do_decrypt_file
          [("report.txt".toList, FsNode.file [1]),
            ("report.txt.enc".toList, FsNode.file (encrypt_bytes [1] (List.replicate 44 65) 0)),
            ("data.bin".toList, FsNode.file (encrypt_bytes [1] (List.replicate 44 65) 0))]
          "report.txt.enc".toList none (List.replicate 44 65)).2 = Except.ok stem)
    ∧ (TE.do_decrypt_file
        [("report.txt".toList, FsNode.file [1]),
          ("report.txt.enc".toList, FsNode.file (encrypt_bytes [1] (List.replicate 44 65) 0)),
          ("data.bin".toList, FsNode.file (encrypt_bytes [1] (List.replicate 44 65) 0))]
        "data.bin".toList none (List.replicate 44 65)).2 =
      Except.ok ("data.bin".toList ++ decSuffix) := by
  have h := c2_suffix_convention
    [("report.txt".toList, FsNode.file [1]),
      ("report.txt.enc".toList, FsNode.file (encrypt_bytes [1] (List.replicate 44 65) 0)),
      ("data.bin".toList, FsNode.file (encrypt_bytes [1] (List.replicate 44 65) 0))]
    (List.replicate 44 65) 0
  refine ⟨h.1 "report.txt".toList [1] (by rfl) (by decide), ?_, ?_⟩
  · exact h.2.1 "report.txt.enc".toList (encrypt_bytes [1] (List.replicate 44 65) 0) [1]
      (by rfl) (by decide) (by rfl) (by decide)
  · exact h.2.2 "data.bin".toList (encrypt_bytes [1] (List.replicate 44 65) 0) [1]
      (by rfl) (by decide) (by rfl) (by decide)

/-- C3: a token sealed under one key is rejected under any other valid key;
a token with any single byte altered is rejected; a token with any single
byte removed is rejected; and in every rejected case `do_decrypt_file`
reports the one failure kind `DecryptionFailed`, so wrong-key and
corrupted-token cases are not distinguished. -/
theorem c3_single_failure_kind (k1 k2 data : List Nat) (nonce : Nat)
    (hk1 : ValidKey k1) (hd : ByteList data) :
    (ValidKey k2 → k1 ≠ k2 → decrypt_bytes (encrypt_bytes data k1 nonce) k2 = none)
    ∧ (∀ (u v : List Nat) (x y : Nat), encrypt_bytes data k1 nonce = u ++ x :: v → x ≠ y →
        decrypt_bytes (u ++ y :: v) k1 = none)
    ∧ (∀ (u v : List Nat) (x : Nat), encrypt_bytes data k1 nonce = u ++ x :: v →
        decrypt_bytes (u ++ v) k1 = none)
    ∧ (∀ (fs : FS) (src : List Char) (dst : Option (List Char)) (key tok : List Nat),
        fsFind fs src = some (FsNode.file tok) → decrypt_bytes tok key = none →
        (TE.do_decrypt_file fs src dst key).2 = Except.error Err.DecryptionFailed) := by
  refine ⟨?_, ?_, ?_, ?_⟩
  · intro hk2 hne
    exact fernet_wrong_key nonce hk1 hk2 hne hd
  · intro u v x y hsplit hxy
    exact fernet_altered nonce hk1 hd hsplit hxy
  · intro u v x hsplit
    exact fernet_removed nonce hk1 hd hsplit
  · intro fs src dst key tok hfind hdec
    simp only [TE.do_decrypt_file, hfind, hdec]

/-- Witness for C3: a concrete wrong key, a concrete one-byte alteration of
the first token byte, a concrete removal of the first token byte, and a
concrete invalid file decryption, all rejected with `DecryptionFailed`. -/
theorem c3_single_failure_kind_witness :
    decrypt_bytes (encrypt_bytes [1, 2] (List.replicate 44 97) 3) (List.replicate 44 98) = none
    ∧ decrypt_bytes ([] ++ 55 :: (encrypt_bytes [1, 2] (List.replicate 44 97) 3).drop 1)
        (List.replicate 44 97) = none
    ∧ decrypt_bytes ([] ++ (encrypt_bytes [1, 2] (List.replicate 44 97) 3).drop 1)
        (List.replicate 44 97) = none
    ∧ (TE.do_decrypt_file [(['t'], FsNode.file [])] ['t'] none (List.replicate 44 97)).2 =
        Except.error Err.DecryptionFailed := by
  have h := c3_single_failure_kind (List.replicate 44 97) (List.replicate 44 98) [1, 2] 3
    (by decide) (by decide)
  refine ⟨h.1 (by decide) (by decide), ?_, ?_, ?_⟩
  · exact h.2.1 [] ((encrypt_bytes [1, 2] (List.replicate 44 97) 3).drop 1) 54 55
      (by rfl) (by decide)
  · exact h.2.2.1 [] ((encrypt_bytes [1, 2] (List.replicate 44 97) 3).drop 1) 54 (by rfl)
  · exact h.2.2.2 [(['t'], FsNode.file [])] ['t'] none (List.replicate 44 97) [] (by rfl) (by rfl)

/-- C4: resolving with no explicit path and no file at the default path
writes exactly one new key file at the default path (the returned filesystem
is literally the input plus that one write), returns the fresh key, and
every subsequent resolution with no explicit path returns the identical key
bytes from that file without writing again. -/
theorem c4_key_autoprovision (fs : FS) (defaultPath : List Char) (freshKey k2 : List Nat)
    (h : fsFind fs defaultPath = none) :
    resolve_key fs none defaultPath freshKey =
      (fsWrite fs defaultPath freshKey, Except.ok freshKey)
    ∧ resolve_key (fsWrite fs defaultPath freshKey) none defaultPath k2 =
      (fsWrite fs defaultPath freshKey, Except.ok freshKey) := by
  constructor
  · simp only [resolve_key, h, fsFind_fsWrite_self]
  · simp only [resolve_key, fsFind_fsWrite_self]

/-- Witness for C4 on an empty filesystem. -/
theorem c4_key_autoprovision_witness :
    resolve_key [] none ['D'] (List.replicate 44 65) =
      (fsWrite [] ['D'] (List.replicate 44 65), Except.ok (List.replicate 44 65))
    ∧ resolve_key (fsWrite [] ['D'] (List.replicate 44 65)) none ['D'] (List.replicate 44 66) =
      (fsWrite [] ['D'] (List.replicate 44 65), Except.ok (List.replicate 44 65)) := by
  have h := c4_key_autoprovision [] ['D'] (List.replicate 44 65) (List.replicate 44 66) (by rfl)
  exact ⟨h.1, h.2⟩

/-- C5: resolving a key with an explicit path that does not exist fails with
`KeyNotFound`, leaves the filesystem unchanged (no write), and never falls
back to generating a key. -/
theorem c5_explicit_key_miss (fs : FS) (p defaultPath : List Char) (freshKey : List Nat)
    (h : fsFind fs p = none) :
    resolve_key fs (some p) defaultPath freshKey = (fs, Except.error Err.KeyNotFound) := by
  simp only [resolve_key, h]

/-- Witness for C5 at a concrete missing path. -/
theorem c5_explicit_key_miss_witness :
    resolve_key [(['k'], FsNode.file [7])] (some ['m']) ['D'] (List.replicate 44 65) =
      ([(['k'], FsNode.file [7])], Except.error Err.KeyNotFound) :=
  c5_explicit_key_miss [(['k'], FsNode.file [7])] ['m'] ['D'] (List.replicate 44 65) (by rfl)

/-- Counterexample to C6 as stated: in `src/text_encrypter.py`, a source
path that exists but is not a regular file passes the `p.exists()` check,
so encrypting it dies on an uncaught `IsADirectoryError` (not a
`SourceNotFound` report), and decrypting it is reported by the
"Failed to decrypt file" handler (the `DecryptionFailed` kind). -/
theorem c6_counterexample :
    TU.main_encrypt_file [(['d'], FsNode.dir)] ['d'] (List.replicate 44 65) 0 =
      ([(['d'], FsNode.dir)], Except.error Err.UncaughtError)
    ∧ Err.UncaughtError ≠ Err.SourceNotFound
    ∧ TU.main_decrypt_file [(['d'], FsNode.dir)] ['d'] (List.replicate 44 65) =
      ([(['d'], FsNode.dir)], Except.error Err.DecryptionFailed)
    ∧ Err.DecryptionFailed ≠ Err.SourceNotFound := by
  refine ⟨by rfl, by decide, by rfl, by decide⟩

/-- C6 as amended: a missing source path fails with `SourceNotFound` and
writes nothing in both variants and both directions; a source that exists
but is not a regular file fails with `SourceNotFound` (writing nothing) in
text-encrypter.py's `do_encrypt_file`/`do_decrypt_file`, while
text_encrypter.py's `main` passes its existence-only check and fails later —
with an uncaught error on encrypt and with the decryption-failure handler on
decrypt — still writing nothing. -/
theorem c6_source_not_found (fs : FS) (src : List Char) (dst : Option (List Char))
    (key : List Nat) (nonce : Nat) :
    (fsFind fs src = none →
      TE.do_encrypt_file fs src dst key nonce = (fs, Except.error Err.SourceNotFound)
      ∧ TE.do_decrypt_file fs src dst key = (fs, Except.error Err.SourceNotFound)
      ∧ TU.main_encrypt_file fs src key nonce = (fs, Except.error Err.SourceNotFound)
      ∧ TU.main_decrypt_file fs src key = (fs, Except.error Err.SourceNotFound))
    ∧ (fsFind fs src = some FsNode.dir →
      TE.do_encrypt_file fs src dst key nonce = (fs, Except.error Err.SourceNotFound)
      ∧ TE.do_decrypt_file fs src dst key = (fs, Except.error Err.SourceNotFound)
      ∧ TU.main_encrypt_file fs src key nonce = (fs, Except.error Err.UncaughtError)
      ∧ TU.main_decrypt_file fs src key = (fs, Except.error Err.DecryptionFailed)) := by
  constructor
  · intro h
    refine ⟨?_, ?_, ?_, ?_⟩
    · simp only [TE.do_encrypt_file, h]
    · simp only [TE.do_decrypt_file, h]
    · simp only [TU.main_encrypt_file, h]
    · simp only [TU.main_decrypt_file, h]
  · intro h
    refine ⟨?_, ?_, ?_, ?_⟩
    · simp only [TE.do_encrypt_file, h]
    · simp only [TE.do_decrypt_file, h]
    · simp only [TU.main_encrypt_file, h]
    · simp only [TU.main_decrypt_file, h]

/-- Witness for the amended C6: a concrete missing path and a concrete
non-regular-file path. -/
theorem c6_source_not_found_witness :
    (TE.do_encrypt_file [(['d'], FsNode.dir)] ['m'] none (List.replicate 44 65) 0 =
        ([(['d'], FsNode.dir)], Except.error Err.SourceNotFound)
      ∧ TE.do_decrypt_file [(['d'], FsNode.dir)] ['m'] none (List.replicate 44 65) =
        ([(['d'], FsNode.dir)], Except.error Err.SourceNotFound)
      ∧ TU.main_encrypt_file [(['d'], FsNode.dir)] ['m'] (List.replicate 44 65) 0 =
        ([(['d'], FsNode.dir)], Except.error Err.SourceNotFound)
      ∧ TU.main_decrypt_file [(['d'], FsNode.dir)] ['m'] (List.replicate 44 65) =
        ([(['d'], FsNode.dir)], Except.error Err.SourceNotFound))
    ∧ (TE.do_encrypt_file [(['d'], FsNode.dir)] ['d'] none (List.replicate 44 65) 0 =
        ([(['d'], FsNode.dir)], Except.error Err.SourceNotFound)
      ∧ TE.do_decrypt_file [(['d'], FsNode.dir)] ['d'] none (List.replicate 44 65) =
        ([(['d'], FsNode.dir)], Except.error Err.SourceNotFound)
      ∧ TU.main_encrypt_file [(['d'], FsNode.dir)] ['d'] (List.replicate 44 65) 0 =
        ([(['d'], FsNode.dir)], Except.error Err.UncaughtError)
      ∧ TU.main_decrypt_file [(['d'], FsNode.dir)] ['d'] (List.replicate 44 65) =
        ([(['d'], FsNode.dir)], Except.error Err.DecryptionFailed)) := by
  have h := c6_source_not_found [(['d'], FsNode.dir)] ['m'] none (List.replicate 44 65) 0
  have h2 := c6_source_not_found [(['d'], FsNode.dir)] ['d'] none (List.replicate 44 65) 0
  exact ⟨h.1 (by rfl), h2.2 (by rfl)⟩

/-- C7: in text mode, a token that decrypts successfully but whose recovered
bytes are not valid UTF-8 fails with `EncodingError`, a failure kind
distinct from `DecryptionFailed`. -/
theorem c7_encoding_error (key tok bs : List Nat)
    (hdec : decrypt_bytes (utf8Encode tok) key = some bs) (henc : utf8Decode bs = none) :
    TE.do_decrypt_text tok key = Except.error Err.EncodingError
    ∧ Err.EncodingError ≠ Err.DecryptionFailed := by
  constructor
  · simp only [TE.do_decrypt_text, hdec, henc]
  · decide

/-- Witness for C7: the ASCII token sealing the single byte `0x80`, which is
not valid UTF-8 on its own. -/
theorem c7_encoding_error_witness :
    TE.do_decrypt_text (encrypt_bytes [128] (List.replicate 44 65) 0) (List.replicate 44 65) =
      Except.error Err.EncodingError
    ∧ Err.EncodingError ≠ Err.DecryptionFailed :=
  c7_encoding_error (List.replicate 44 65) (encrypt_bytes [128] (List.replicate 44 65) 0) [128]
    (by rfl) (by rfl)

/-- C10: a file decryption whose token fails authentication exits with the
decryption failure before any output write: the returned filesystem is
exactly the input filesystem, in both program variants. -/
theorem c10_no_write_on_failure (fs : FS) (src : List Char) (dst : Option (List Char))
    (key tok : List Nat) (hfind : fsFind fs src = some (FsNode.file tok))
    (hdec : decrypt_bytes tok key = none) :
    TE.do_decrypt_file fs src dst key = (fs, Except.error Err.DecryptionFailed)
    ∧ TU.main_decrypt_file fs src key = (fs, Except.error Err.DecryptionFailed) := by
  constructor
  · simp only [TE.do_decrypt_file, hfind, hdec]
  · simp only [TU.main_decrypt_file, hfind, hdec]

/-- Witness for C10: a file holding an empty (hence invalid) token. -/
theorem c10_no_write_on_failure_witness :
    TE.do_decrypt_file [(['t'], FsNode.file [])] ['t'] none (List.replicate 44 65) =
      ([(['t'], FsNode.file [])], Except.error Err.DecryptionFailed)
    ∧ TU.main_decrypt_file [(['t'], FsNode.file [])] ['t'] (List.replicate 44 65) =
      ([(['t'], FsNode.file [])], Except.error Err.DecryptionFailed) :=
  c10_no_write_on_failure [(['t'], FsNode.file [])] ['t'] none (List.replicate 44 65) []
    (by rfl) (by rfl)

/-- Counterexample to C8 as stated: in text_encrypter.py the
`KeyboardInterrupt` handler covers only the encrypt/decrypt dispatch and
`main()` has no `__main__` guard, so for an invocation interrupted outside
that `try` — e.g. during `resolve_key` at line 158 — the program never
calls `sys.exit(130)` and establishes no exit status at all, in particular
not 130. -/
theorem c8_counterexample :
    TU.processExit TU.RunResult.interruptedOutsideDispatch ≠ some 130 := by
  intro h
  exact Option.noConfusion h

/-- C8 (amended): in both variants the process exit status is 0 when `main`
completes successfully and 1 when it completes with any handled failure —
the conjuncts exhibit the missing-key, missing-file, decryption-failure and
encoding-failure cases reaching that path in each variant.  Exit status 130
on user interrupt holds at any point of the invocation for
text-encrypter.py, whose `__main__` guard wraps the whole of `main`; for
text_encrypter.py it holds exactly when the interrupt is raised inside the
encrypt/decrypt dispatch `try`, the only region its handler covers — an
interrupt elsewhere escapes the program uncaught and the program
establishes no exit status there. -/
theorem c8_exit_codes (fs : FS) (dp : List Char) (fk : List Nat) (nonce : Nat) :
    (∀ a : Args, (TE.main a fs dp fk nonce).2 = Except.ok () →
      TE.processExit (RunResult.completed (TE.main a fs dp fk nonce).2) = 0)
    ∧ (∀ (a : Args) (e : Err), (TE.main a fs dp fk nonce).2 = Except.error e →
      TE.processExit (RunResult.completed (TE.main a fs dp fk nonce).2) = 1)
    ∧ TE.processExit RunResult.interrupted = 130
    ∧ (∀ k c, (TE.main ⟨true, k, c⟩ fs dp fk nonce).2 = Except.ok ())
    ∧ (∀ p t, fsFind fs p = none →
        (TE.main ⟨false, some p, Cmd.encText t⟩ fs dp fk nonce).2 =
          Except.error Err.KeyNotFound)
    ∧ (∀ f out kp key, fsFind fs kp = some (FsNode.file key) → fsFind fs f = none →
        (TE.main ⟨false, some kp, Cmd.encFile f out⟩ fs dp fk nonce).2 =
          Except.error Err.SourceNotFound)
    ∧ (∀ f out kp key tok, fsFind fs kp = some (FsNode.file key) →
        fsFind fs f = some (FsNode.file tok) → decrypt_bytes tok key = none →
        (TE.main ⟨false, some kp, Cmd.decFile f out⟩ fs dp fk nonce).2 =
          Except.error Err.DecryptionFailed)
    ∧ (∀ tok bs kp key, fsFind fs kp = some (FsNode.file key) →
        decrypt_bytes (utf8Encode tok) key = some bs → utf8Decode bs = none →
        (TE.main ⟨false, some kp, Cmd.decText tok⟩ fs dp fk nonce).2 =
          Except.error Err.EncodingError)
    ∧ (∀ (a : TU.Args) (noArgs : Bool), (TU.main a noArgs fs dp fk nonce).2 = Except.ok () →
      TU.processExit (TU.RunResult.completed (TU.main a noArgs fs dp fk nonce).2) = some 0)
    ∧ (∀ (a : TU.Args) (noArgs : Bool) (e : Err),
      (TU.main a noArgs fs dp fk nonce).2 = Except.error e →
      TU.processExit (TU.RunResult.completed (TU.main a noArgs fs dp fk nonce).2) = some 1)
    ∧ TU.processExit TU.RunResult.interruptedInDispatch = some 130
    ∧ TU.processExit TU.RunResult.interruptedOutsideDispatch = none
    ∧ (∀ p, fsFind fs p = none →
        (TU.main ⟨false, false, false, false, false, none, none, some p⟩ false
          fs dp fk nonce).2 = Except.error Err.KeyNotFound)
    ∧ (∀ f kp key, fsFind fs kp = some (FsNode.file key) → fsFind fs f = none →
        (TU.main ⟨false, false, false, true, false, none, some f, some kp⟩ false
          fs dp fk nonce).2 = Except.error Err.SourceNotFound)
    ∧ (∀ f kp key tok, fsFind fs kp = some (FsNode.file key) →
        fsFind fs f = some (FsNode.file tok) → decrypt_bytes tok key = none →
        (TU.main ⟨false, false, false, false, true, none, some f, some kp⟩ false
          fs dp fk nonce).2 = Except.error Err.DecryptionFailed)
    ∧ (∀ tok bs kp key, fsFind fs kp = some (FsNode.file key) →
        decrypt_bytes (utf8Encode tok) key = some bs → utf8Decode bs = none →
        (TU.main ⟨false, false, false, false, true, some tok, none, some kp⟩ false
          fs dp fk nonce).2 = Except.error Err.EncodingError) := by
  refine ⟨?_, ?_, rfl, ?_, ?_, ?_, ?_, ?_, ?_, ?_, rfl, rfl, ?_, ?_, ?_, ?_⟩
  · intro a h
    rw [TE.processExit, h]
    rfl
  · intro a e h
    rw [TE.processExit, h]
    rfl
  · intro k c
    rfl
  · intro p t h
    simp [TE.main, resolve_key, h]
  · intro f out kp key hkp hf
    simp [TE.main, resolve_key, TE.do_encrypt_file, hkp, hf, Except.map]
  · intro f out kp key tok hkp hf hdec
    simp [TE.main, resolve_key, TE.do_decrypt_file, hkp, hf, hdec, Except.map]
  · intro tok bs kp key hkp hdec henc
    simp [TE.main, resolve_key, TE.do_decrypt_text, hkp, hdec, henc, Except.map]
  · intro a n h
    rw [TU.processExit, h]
    rfl
  · intro a n e h
    rw [TU.processExit, h]
    rfl
  · intro p h
    simp [TU.main, resolve_key, h]
  · intro f kp key hkp hf
    simp [TU.main, resolve_key, TU.main_encrypt_file, hkp, hf, Except.map]
  · intro f kp key tok hkp hf hdec
    simp [TU.main, resolve_key, TU.main_decrypt_file, hkp, hf, hdec, Except.map]
  · intro tok bs kp key hkp hdec henc
    simp [TU.main, resolve_key, hkp, hdec, henc]

/-- Witness for the amended C8: concrete success, missing-key,
missing-file, decryption-failure and encoding-failure runs of both
variants, with the three interrupt statuses. -/
theorem c8_exit_codes_witness :
    TE.processExit (RunResult.completed
      (TE.main ⟨true, none, Cmd.noCmd⟩
        [(['k'], FsNode.file (List.replicate 44 65)), (['f'], FsNode.file [])]
        ['D'] (List.replicate 44 66) 0).2) = 0
    ∧ TE.processExit (RunResult.completed
      (TE.main ⟨false, some ['m'], Cmd.encText []⟩
        [(['k'], FsNode.file (List.replicate 44 65)), (['f'], FsNode.file [])]
        ['D'] (List.replicate 44 66) 0).2) = 1
    ∧ TE.processExit (RunResult.completed
      (TE.main ⟨false, some ['k'], Cmd.encFile ['g'] none⟩
        [(['k'], FsNode.file (List.replicate 44 65)), (['f'], FsNode.file [])]
        ['D'] (List.replicate 44 66) 0).2) = 1
    ∧ TE.processExit (RunResult.completed
      (TE.main ⟨false, some ['k'], Cmd.decFile ['f'] none⟩
        [(['k'], FsNode.file (List.replicate 44 65)), (['f'], FsNode.file [])]
        ['D'] (List.replicate 44 66) 0).2) = 1
    ∧ TE.processExit (RunResult.completed
      (TE.main ⟨false, some ['k'], Cmd.decText (encrypt_bytes [128] (List.replicate 44 65) 0)⟩
        [(['k'], FsNode.file (List.replicate 44 65)), (['f'], FsNode.file [])]
        ['D'] (List.replicate 44 66) 0).2) = 1
    ∧ TE.processExit RunResult.interrupted = 130
    ∧ TU.processExit (TU.RunResult.completed
      (TU.main ⟨true, false, false, false, false, none, none, none⟩ false
        [(['k'], FsNode.file (List.replicate 44 65)), (['f'], FsNode.file [])]
        ['D'] (List.replicate 44 66) 0).2) = some 0
    ∧ TU.processExit (TU.RunResult.completed
      (TU.main ⟨false, false, false, false, false, none, none, some ['m']⟩ false
        [(['k'], FsNode.file (List.replicate 44 65)), (['f'], FsNode.file [])]
        ['D'] (List.replicate 44 66) 0).2) = some 1
    ∧ TU.processExit (TU.RunResult.completed
      (TU.main ⟨false, false, false, true, false, none, some ['g'], some ['k']⟩ false
        [(['k'], FsNode.file (List.replicate 44 65)), (['f'], FsNode.file [])]
        ['D'] (List.replicate 44 66) 0).2) = some 1
    ∧ TU.processExit (TU.RunResult.completed
      (TU.main ⟨false, false, false, false, true, none, some ['f'], some ['k']⟩ false
        [(['k'], FsNode.file (List.replicate 44 65)), (['f'], FsNode.file [])]
        ['D'] (List.replicate 44 66) 0).2) = some 1
    ∧ TU.processExit (TU.RunResult.completed
      (TU.main ⟨false, false, false, false, true,
          some (encrypt_bytes [128] (List.replicate 44 65) 0), none, some ['k']⟩ false
        [(['k'], FsNode.file (List.replicate 44 65)), (['f'], FsNode.file [])]
        ['D'] (List.replicate 44 66) 0).2) = some 1
    ∧ TU.processExit TU.RunResult.interruptedInDispatch = some 130
    ∧ TU.processExit TU.RunResult.interruptedOutsideDispatch = none := by
  obtain ⟨hTEok, hTEerr, hTEint, hTEver, hTEkey, hTEsrc, hTEdec, hTEenc,
      hTUok, hTUerr, hTUint, hTUout, hTUkey, hTUsrc, hTUdec, hTUenc⟩ :=
    c8_exit_codes [(['k'], FsNode.file (List.replicate 44 65)), (['f'], FsNode.file [])]
      ['D'] (List.replicate 44 66) 0
  refine ⟨hTEok ⟨true, none, Cmd.noCmd⟩ (hTEver none Cmd.noCmd), ?_, ?_, ?_, ?_, hTEint,
    hTUok ⟨true, false, false, false, false, none, none, none⟩ false (by rfl),
    ?_, ?_, ?_, ?_, hTUint, hTUout⟩
  · exact hTEerr ⟨false, some ['m'], Cmd.encText []⟩ Err.KeyNotFound
      (hTEkey ['m'] [] (by rfl))
  · exact hTEerr ⟨false, some ['k'], Cmd.encFile ['g'] none⟩ Err.SourceNotFound
      (hTEsrc ['g'] none ['k'] (List.replicate 44 65) (by rfl) (by rfl))
  · exact hTEerr ⟨false, some ['k'], Cmd.decFile ['f'] none⟩ Err.DecryptionFailed
      (hTEdec ['f'] none ['k'] (List.replicate 44 65) [] (by rfl) (by rfl) (by rfl))
  · exact hTEerr ⟨false, some ['k'], Cmd.decText (encrypt_bytes [128] (List.replicate 44 65) 0)⟩
      Err.EncodingError
      (hTEenc (encrypt_bytes [128] (List.replicate 44 65) 0) [128] ['k']
        (List.replicate 44 65) (by rfl) (by rfl) (by rfl))
  · exact hTUerr ⟨false, false, false, false, false, none, none, some ['m']⟩ false
      Err.KeyNotFound (hTUkey ['m'] (by rfl))
  · exact hTUerr ⟨false, false, false, true, false, none, some ['g'], some ['k']⟩ false
      Err.SourceNotFound (hTUsrc ['g'] ['k'] (List.replicate 44 65) (by rfl) (by rfl))
  · exact hTUerr ⟨false, false, false, false, true, none, some ['f'], some ['k']⟩ false
      Err.DecryptionFailed
      (hTUdec ['f'] ['k'] (List.replicate 44 65) [] (by rfl) (by rfl) (by rfl))
  · exact hTUerr ⟨false, false, false, false, true,
        some (encrypt_bytes [128] (List.replicate 44 65) 0), none, some ['k']⟩ false
      Err.EncodingError
      (hTUenc (encrypt_bytes [128] (List.replicate 44 65) 0) [128] ['k']
        (List.replicate 44 65) (by rfl) (by rfl) (by rfl))

/-- C9: sealing the same payload under the same key with two different
fresh nonces (the primitive embeds a fresh 128-bit nonce/timestamp each
call) yields two different tokens. -/
theorem c9_nondeterminism (key data : List Nat) (n1 n2 : Nat) (hk : ValidKey key)
    (hd : ByteList data) (h1 : n1 < 2 ^ 128) (h2 : n2 < 2 ^ 128) (hne : n1 ≠ n2) :
    encrypt_bytes data key n1 ≠ encrypt_bytes data key n2 := by
  intro heq
  apply hne
  have hinj := hexEncode_inj (ByteList_sealed n1 hk hd) (ByteList_sealed n2 hk hd) heq
  have comp : ∀ n : Nat,
      (((key ++ (toBytesLE 16 n ++ data) ++ (toBytesLE 16 n ++ data).reverse).drop 44).take 16) =
        toBytesLE 16 n := by
    intro n
    rw [List.append_assoc, ← hk.1, List.drop_left]
    have t := List.take_left (toBytesLE 16 n) (data ++ (toBytesLE 16 n ++ data).reverse)
    rw [toBytesLE_length] at t
    rw [List.append_assoc]
    exact t
  have hb : toBytesLE 16 n1 = toBytesLE 16 n2 := by
    have h3 := congrArg (fun l => (l.drop 44).take 16) hinj
    simp only [] at h3
    rw [comp n1, comp n2] at h3
    exact h3
  have h256 : (256 : Nat) ^ 16 = 2 ^ 128 := by norm_num
  exact toBytesLE_inj (by omega) (by omega) hb

/-- Witness for C9 at nonces 0 and 1. -/
theorem c9_nondeterminism_witness :
    encrypt_bytes [5] (List.replicate 44 65) 0 ≠ encrypt_bytes [5] (List.replicate 44 65) 1 :=
  c9_nondeterminism (List.replicate 44 65) [5] 0 1 (by decide) (by decide)
    (by norm_num) (by norm_num) (by norm_num)
